import Mathlib

/-!
Verification of go-lifetime: the Singleton and Transient lifetimes.

A shallow embedding of `singleton.go`, `transient.go`, `lifetime.go` and
`internal/atomic_bool.go`, for sequential executions.

Conventions of the embedding

* A Go value of type `error` is an `Option E`: `none` is `nil`, `some e` is a
  non-nil error carrying `e`.
* The zero value of the type parameter `T` is `default` (`[Inhabited T]`).
* The constructor `create func() (T, error)` and the cleanup function
  `cleanup func(T)` are closures over caller state.  That state is the world
  `W`; a call of `create` is a function `W → (T × Option E) × W`, a call of
  `cleanup` a function `T → W → W`.  A `nil` cleanup function is `none`.
  The callbacks return (they neither panic nor diverge) and act on `W` only,
  not on the lifetime object that runs them.
* A method with a pointer receiver takes the object and the world and returns
  them updated.
* `panic(err)` in `MustInstance` is `Except.error err`.
* `sync.Once` is its `done` flag, `sync.Mutex` has no effect in a sequential
  execution and is left out.
-/

namespace Lifetime

/-! ## internal/atomic_bool.go -/

/-- The function `b32`: a uint32 0 or 1 representing `b`. -/
def b32 (b : Bool) : Nat :=
  if b then 1 else 0

/-- The struct `AtomicBool`; `v` is the uint32 word, zero in the zero value. -/
structure AtomicBool where
  v : Nat := 0
  deriving DecidableEq, Repr

/-- The method `Load`: `atomic.LoadUint32(&x.v) != 0`. -/
def AtomicBool.Load (x : AtomicBool) : Bool :=
  x.v != 0

/-- The method `Store`: `atomic.StoreUint32(&x.v, b32(val))`. -/
def AtomicBool.Store (_x : AtomicBool) (val : Bool) : AtomicBool :=
  { v := b32 val }

/-- The method `Swap`: stores `b32(new)` and returns whether the previous word
was non-zero. -/
def AtomicBool.Swap (x : AtomicBool) (new : Bool) : Bool × AtomicBool :=
  (x.v != 0, { v := b32 new })

/-- The method `CompareAndSwap`: `atomic.CompareAndSwapUint32(&x.v, b32(old), b32(new))`. -/
def AtomicBool.CompareAndSwap (x : AtomicBool) (old new : Bool) : Bool × AtomicBool :=
  if x.v = b32 old then (true, { v := b32 new }) else (false, x)

/-- A call of a method of `AtomicBool`: `Load()`, `Store(val)`, `Swap(new)` or
`CompareAndSwap(old, new)`. -/
inductive AtomicBool.Op where
  | Load
  | Store (val : Bool)
  | Swap (new : Bool)
  | CompareAndSwap (old new : Bool)
  deriving DecidableEq, Repr

/-- The cell after a sequence of method calls made one after the other on the
cell `x`. -/
def AtomicBool.after (x : AtomicBool) : List AtomicBool.Op → AtomicBool
  | [] => x
  | AtomicBool.Op.Load :: ops => AtomicBool.after x ops
  | AtomicBool.Op.Store val :: ops => AtomicBool.after (x.Store val) ops
  | AtomicBool.Op.Swap new :: ops => AtomicBool.after (x.Swap new).2 ops
  | AtomicBool.Op.CompareAndSwap old new :: ops =>
    AtomicBool.after (x.CompareAndSwap old new).2 ops

/-! ## sync.Once (standard library) -/

/-- The state of a `sync.Once`: whether `Do` has already run its argument. -/
structure Once where
  done : Bool := false
  deriving DecidableEq, Repr

/-- The method `Once.Do`: runs `f` on the state if and only if this is the first
call of `Do` on this `Once`. -/
def Once.Do {σ : Type} (o : Once) (f : σ → σ) (st : σ) : Once × σ :=
  if o.done then (o, st) else ({ done := true }, f st)

/-! ## singleton.go -/

/-- The struct `Singleton[T]`.  The field `instance` is named `inst`. -/
structure Singleton (W T E : Type) where
  createdOnce : Once
  cleanupOnce : Once
  create : W → (T × Option E) × W
  cleanup : Option (T → W → W)
  wasCreated : AtomicBool
  inst : T
  err : Option E

/-- The method `Singleton.Instance`:
`s.createdOnce.Do(func() { s.instance, s.err = s.create(); s.wasCreated.Swap(s.err == nil) })`
followed by `return s.instance, s.err`. -/
def Singleton.Instance {W T E : Type} (s : Singleton W T E) (w : W) :
    (T × Option E) × Singleton W T E × W :=
  let r := s.createdOnce.Do
    (fun (p : Singleton W T E × W) =>
      let c := p.1.create p.2
      let s1 : Singleton W T E := { p.1 with inst := c.1.1, err := c.1.2 }
      let sw := s1.wasCreated.Swap s1.err.isNone
      (({ s1 with wasCreated := sw.2 } : Singleton W T E), c.2))
    (s, w)
  let s2 : Singleton W T E := { r.2.1 with createdOnce := r.1 }
  ((s2.inst, s2.err), s2, r.2.2)

/-- The method `Singleton.MustInstance`: calls `Instance` and panics with the
error if it is not nil. -/
def Singleton.MustInstance {W T E : Type} (s : Singleton W T E) (w : W) :
    Except E T × Singleton W T E × W :=
  let r := s.Instance w
  match r.1.2 with
  | some err => (Except.error err, r.2)
  | none => (Except.ok r.1.1, r.2)

/-- The method `Singleton.Cleanup`:
`if s.cleanup != nil && s.wasCreated.Load() { s.cleanupOnce.Do(func() { s.cleanup(s.instance) }) }`. -/
def Singleton.Cleanup {W T E : Type} (s : Singleton W T E) (w : W) :
    Singleton W T E × W :=
  match s.cleanup with
  | some cleanup =>
    if s.wasCreated.Load then
      let r := s.cleanupOnce.Do (fun w1 => cleanup s.inst w1) w
      ({ s with cleanupOnce := r.1 }, r.2)
    else (s, w)
  | none => (s, w)

/-- The function `NewSingletonWithCleanup`: the struct literal sets `create` and
`cleanup`, every other field has its zero value; the second result is the
method value `s.Cleanup`. -/
def NewSingletonWithCleanup {W T E : Type} [Inhabited T]
    (create : W → (T × Option E) × W) (cleanup : Option (T → W → W)) :
    Singleton W T E × (Singleton W T E → W → Singleton W T E × W) :=
  ({ createdOnce := { done := false }
     cleanupOnce := { done := false }
     create := create
     cleanup := cleanup
     wasCreated := { v := 0 }
     inst := default
     err := none },
   Singleton.Cleanup)

/-- The function `NewSingleton`: `NewSingletonWithCleanup(create, nil)`, the
cleanup handle dropped. -/
def NewSingleton {W T E : Type} [Inhabited T]
    (create : W → (T × Option E) × W) : Singleton W T E :=
  (NewSingletonWithCleanup create none).1

/-! ## transient.go -/

/-- The struct `Transient[T]` (without `instancesMutex`); the nil slice is `[]`. -/
structure Transient (W T E : Type) where
  create : W → (T × Option E) × W
  instances : List T
  cleanup : Option (T → W → W)

/-- The method `Transient.Instance`: calls `create`; appends the instance to
`instances` when `err == nil && t.cleanup != nil`; returns what `create` returned. -/
def Transient.Instance {W T E : Type} (t : Transient W T E) (w : W) :
    (T × Option E) × Transient W T E × W :=
  let c := t.create w
  let t1 : Transient W T E :=
    if c.1.2.isNone && t.cleanup.isSome then { t with instances := t.instances ++ [c.1.1] } else t
  ((c.1.1, c.1.2), t1, c.2)

/-- The method `Transient.MustInstance`: calls `Instance` and panics with the
error if it is not nil. -/
def Transient.MustInstance {W T E : Type} (t : Transient W T E) (w : W) :
    Except E T × Transient W T E × W :=
  let r := t.Instance w
  match r.1.2 with
  | some err => (Except.error err, r.2)
  | none => (Except.ok r.1.1, r.2)

/-- The loop `for i := len(t.instances) - 1; i >= 0; i-- { t.cleanup(t.instances[i]) }`
of `Transient.Cleanup`; `n` is `i + 1`, so the loop is entered with
`n = len(t.instances)` and ends at `n = 0`. -/
def Transient.cleanupLoop {W T : Type} (cleanup : T → W → W) (instances : List T) :
    Nat → W → W
  | 0, w => w
  | n + 1, w =>
    match instances[n]? with
    | some x => Transient.cleanupLoop cleanup instances n (cleanup x w)
    | none => w

/-- The method `Transient.Cleanup`: when `t.cleanup != nil`, runs the loop and
sets `t.instances = nil`. -/
def Transient.Cleanup {W T E : Type} (t : Transient W T E) (w : W) :
    Transient W T E × W :=
  match t.cleanup with
  | some cleanup =>
    ({ t with instances := [] },
     Transient.cleanupLoop cleanup t.instances t.instances.length w)
  | none => (t, w)

/-- The function `NewTransientWithCleanup`: the struct literal sets `create` and
`cleanup`, `instances` is the nil slice; the second result is the method value
`t.Cleanup`. -/
def NewTransientWithCleanup {W T E : Type}
    (create : W → (T × Option E) × W) (cleanup : Option (T → W → W)) :
    Transient W T E × (Transient W T E → W → Transient W T E × W) :=
  ({ create := create, instances := [], cleanup := cleanup }, Transient.Cleanup)

/-- The function `NewTransient`: `NewTransientWithCleanup(create, nil)`, the
cleanup handle dropped. -/
def NewTransient {W T E : Type}
    (create : W → (T × Option E) × W) : Transient W T E :=
  (NewTransientWithCleanup create none).1

/-! ## Sequences of calls -/

/-- A call made by the owner of a lifetime: the method `Instance`, the method
`Cleanup`, or the `func()` handle returned by the `New...WithCleanup` function. -/
inductive Call where
  | Instance
  | Cleanup
  | Handle
  deriving DecidableEq, Repr

/-- Runs a sequence of calls on a `Singleton`, one after the other, and collects
what the `Instance` calls returned, in call order. -/
def Singleton.run {W T E : Type} (handle : Singleton W T E → W → Singleton W T E × W) :
    List Call → Singleton W T E → W → List (T × Option E) × Singleton W T E × W
  | [], s, w => ([], s, w)
  | Call.Instance :: cs, s, w =>
    let r := s.Instance w
    let rest := Singleton.run handle cs r.2.1 r.2.2
    (r.1 :: rest.1, rest.2)
  | Call.Cleanup :: cs, s, w =>
    let r := s.Cleanup w
    Singleton.run handle cs r.1 r.2
  | Call.Handle :: cs, s, w =>
    let r := handle s w
    Singleton.run handle cs r.1 r.2

/-- Runs a sequence of calls on a `Transient`, one after the other, and collects
what the `Instance` calls returned, in call order. -/
def Transient.run {W T E : Type} (handle : Transient W T E → W → Transient W T E × W) :
    List Call → Transient W T E → W → List (T × Option E) × Transient W T E × W
  | [], t, w => ([], t, w)
  | Call.Instance :: cs, t, w =>
    let r := t.Instance w
    let rest := Transient.run handle cs r.2.1 r.2.2
    (r.1 :: rest.1, rest.2)
  | Call.Cleanup :: cs, t, w =>
    let r := t.Cleanup w
    Transient.run handle cs r.1 r.2
  | Call.Handle :: cs, t, w =>
    let r := handle t w
    Transient.run handle cs r.1 r.2

/-- The results of `n` successive direct invocations of a constructor, and the
world they leave. -/
def invocations {W T E : Type} (create : W → (T × Option E) × W) :
    Nat → W → List (T × Option E) × W
  | 0, w => ([], w)
  | n + 1, w =>
    let c := create w
    let rest := invocations create n c.2
    (c.1 :: rest.1, rest.2)

/-- The values of the results that come with a nil error, in order. -/
def successes {T E : Type} (rs : List (T × Option E)) : List T :=
  rs.filterMap (fun r => if r.2.isNone then some r.1 else none)

/-! ## Instrumentation, as in the tests

The tests observe a lifetime through closures: the constructor increments
`createdCount`, the cleanup function increments `cleanupCount` or appends its
argument to `cleanupStack`.  `Probe` is that caller state around the state `W`
of an arbitrary constructor and cleanup function. -/

/-- Caller state of an instrumented constructor and cleanup function. -/
structure Probe (W T : Type) where
  world : W
  createdCount : Nat
  cleanupStack : List T

/-- The caller state before anything ran: no constructor invocation counted, no
cleanup argument recorded. -/
def Probe.start {W T : Type} (w : W) : Probe W T :=
  { world := w, createdCount := 0, cleanupStack := [] }

/-- A constructor that does `createdCount++` and then what `create` does. -/
def counted {W T E : Type} (create : W → (T × Option E) × W) :
    Probe W T → (T × Option E) × Probe W T :=
  fun p =>
    let c := create p.world
    (c.1, { p with world := c.2, createdCount := p.createdCount + 1 })

/-- A cleanup function that does `cleanupStack = append(cleanupStack, i)` and
then what `cleanup` does. -/
def recorded {W T : Type} (cleanup : T → W → W) : T → Probe W T → Probe W T :=
  fun i p => { p with world := cleanup i p.world, cleanupStack := p.cleanupStack ++ [i] }

/-! ## Constructors of the tests -/

/-- The constructor `func() (int, error) { return 42, nil }`. -/
def create42 : Unit → (Nat × Option String) × Unit :=
  fun u => ((42, none), u)

/-- The constructor `func() (int, error) { return 0, errors.New("ah") }`. -/
def createAh : Unit → (Nat × Option String) × Unit :=
  fun u => ((0, some "ah"), u)

/-- The constructor `func() (int, error) { createdCount++; return createdCount, nil }`;
the world is `createdCount`. -/
def createCount : Nat → (Nat × Option String) × Nat :=
  fun createdCount => ((createdCount + 1, none), createdCount + 1)

/-- A constructor that fails on its first invocation and succeeds afterwards;
the world is the number of invocations so far. -/
def createFailFirst : Nat → (Nat × Option String) × Nat :=
  fun n => if n = 0 then ((0, some "ah"), 1) else ((42, none), n + 1)

/-- A constructor that returns a non-zero value together with a non-nil error:
`func() (int, error) { return 7, errors.New("ah") }`. -/
def createBoth : Unit → (Nat × Option String) × Unit :=
  fun u => ((7, some "ah"), u)

/-- A cleanup function without an effect of its own. -/
def cleanupNop {W : Type} : Nat → W → W :=
  fun _ w => w

/-! ## Sessions: a fresh lifetime and a sequence of calls on it -/

/-- Builds a `Singleton` with `NewSingletonWithCleanup(create, cleanup)` and runs
the calls on it, `Call.Handle` being a call of the returned handle. -/
def Singleton.session {W T E : Type} [Inhabited T]
    (create : W → (T × Option E) × W) (cleanup : Option (T → W → W))
    (calls : List Call) (w : W) : List (T × Option E) × Singleton W T E × W :=
  let p := NewSingletonWithCleanup create cleanup
  Singleton.run p.2 calls p.1 w

/-- Builds a `Transient` with `NewTransientWithCleanup(create, cleanup)` and runs
the calls on it, `Call.Handle` being a call of the returned handle. -/
def Transient.session {W T E : Type}
    (create : W → (T × Option E) × W) (cleanup : Option (T → W → W))
    (calls : List Call) (w : W) : List (T × Option E) × Transient W T E × W :=
  let p := NewTransientWithCleanup create cleanup
  Transient.run p.2 calls p.1 w

/-- A `Singleton.session` with the constructor counted and the cleanup function
(if there is one) recorded, from the caller state `Probe.start w`. -/
def Singleton.observed {W T E : Type} [Inhabited T]
    (create : W → (T × Option E) × W) (cleanup : Option (T → W → W))
    (calls : List Call) (w : W) :
    List (T × Option E) × Singleton (Probe W T) T E × Probe W T :=
  Singleton.session (counted create) (cleanup.map recorded) calls (Probe.start w)

/-- A `Transient.session` with the constructor counted and the cleanup function
(if there is one) recorded, from the caller state `Probe.start w`. -/
def Transient.observed {W T E : Type}
    (create : W → (T × Option E) × W) (cleanup : Option (T → W → W))
    (calls : List Call) (w : W) :
    List (T × Option E) × Transient (Probe W T) T E × Probe W T :=
  Transient.session (counted create) (cleanup.map recorded) calls (Probe.start w)

/-! # Theorems -/

/-! ## Singleton: one call -/

theorem Singleton.Instance_done {W T E : Type} (s : Singleton W T E) (w : W)
    (h : s.createdOnce.done = true) : s.Instance w = ((s.inst, s.err), s, w) := by
  cases s with
  | mk co cl cr cu wc i e =>
    cases co with
    | mk d =>
      simp only at h
      subst h
      simp [Singleton.Instance, Once.Do]

theorem Singleton.Instance_first {W T E : Type} (s : Singleton W T E) (w : W)
    (h : s.createdOnce.done = false) :
    s.Instance w =
      (((s.create w).1.1, (s.create w).1.2),
       { s with
           createdOnce := { done := true }
           inst := (s.create w).1.1
           err := (s.create w).1.2
           wasCreated := { v := b32 (s.create w).1.2.isNone } },
       (s.create w).2) := by
  simp [Singleton.Instance, Once.Do, h, AtomicBool.Swap]

theorem Singleton.Cleanup_fires {W T E : Type} (s : Singleton W T E) (w : W)
    (cleanup : T → W → W) (hc : s.cleanup = some cleanup)
    (hw : s.wasCreated.Load = true) (hd : s.cleanupOnce.done = false) :
    s.Cleanup w = ({ s with cleanupOnce := { done := true } }, cleanup s.inst w) := by
  simp [Singleton.Cleanup, Once.Do, hc, hw, hd]

theorem Singleton.Cleanup_inert {W T E : Type} (s : Singleton W T E) (w : W)
    (h : s.cleanup = none ∨ s.wasCreated.Load = false ∨ s.cleanupOnce.done = true) :
    s.Cleanup w = (s, w) := by
  cases s with
  | mk co cl cr cu wc i e =>
    cases cl with
    | mk d =>
      cases cu with
      | none => simp [Singleton.Cleanup]
      | some f =>
        cases hl : AtomicBool.Load wc with
        | false => simp [Singleton.Cleanup, hl]
        | true =>
          have hd : d = true := by simpa [hl] using h
          subst hd
          simp [Singleton.Cleanup, hl, Once.Do]

/-! ## Singleton: sequences of calls -/

theorem Singleton.run_append {W T E : Type} (h : Singleton W T E → W → Singleton W T E × W)
    (xs ys : List Call) (s : Singleton W T E) (w : W) :
    Singleton.run h (xs ++ ys) s w =
      ((Singleton.run h xs s w).1 ++
          (Singleton.run h ys (Singleton.run h xs s w).2.1 (Singleton.run h xs s w).2.2).1,
       (Singleton.run h ys (Singleton.run h xs s w).2.1 (Singleton.run h xs s w).2.2).2) := by
  induction xs generalizing s w with
  | nil => simp [Singleton.run]
  | cons c cs ih => cases c <;> simp [Singleton.run, ih]

theorem Singleton.run_instances_done {W T E : Type}
    (h : Singleton W T E → W → Singleton W T E × W) (s : Singleton W T E) (w : W)
    (hd : s.createdOnce.done = true) (n : Nat) :
    Singleton.run h (List.replicate n Call.Instance) s w =
      (List.replicate n (s.inst, s.err), s, w) := by
  induction n with
  | zero => simp [Singleton.run]
  | succ n ih => simp [List.replicate_succ, Singleton.run, Singleton.Instance_done s w hd, ih]

theorem Singleton.run_instances_first {W T E : Type}
    (h : Singleton W T E → W → Singleton W T E × W) (s : Singleton W T E) (w : W)
    (hd : s.createdOnce.done = false) (n : Nat) :
    Singleton.run h (List.replicate (n + 1) Call.Instance) s w =
      (List.replicate (n + 1) (s.create w).1,
       { s with
           createdOnce := { done := true }
           inst := (s.create w).1.1
           err := (s.create w).1.2
           wasCreated := { v := b32 (s.create w).1.2.isNone } },
       (s.create w).2) := by
  rw [List.replicate_succ, Singleton.run, Singleton.Instance_first s w hd]
  simp only
  rw [Singleton.run_instances_done h _ _ rfl n]
  simp [List.replicate_succ]

/-! ## C1, C2: Singleton memoizes -/

/-- C1. Singleton memoizes success: when the first invocation of the constructor
(in the world `w`) returns `(v, nil)`, then `N ≥ 1` sequential `Instance` calls on
a fresh Singleton (from `NewSingletonWithCleanup` with any cleanup argument, or
from `NewSingleton`) each return `(v, nil)`, the constructor has been invoked
exactly once (its counter is 1 and the world is the one left by one
invocation), and after zero `Instance` calls it has been invoked zero times. -/
theorem singleton_memoizes_success {W T E : Type} [Inhabited T]
    (create : W → (T × Option E) × W) (cleanup : Option (T → W → W))
    (w : W) (v : T) (hfirst : (create w).1 = (v, none)) (N : Nat) (hN : 1 ≤ N) :
    (Singleton.observed create cleanup (List.replicate N Call.Instance) w).1
        = List.replicate N (v, none)
    ∧ (Singleton.observed create cleanup (List.replicate N Call.Instance) w).2.2.createdCount = 1
    ∧ (Singleton.observed create cleanup (List.replicate N Call.Instance) w).2.2.world
        = (create w).2
    ∧ (Singleton.run Singleton.Cleanup (List.replicate N Call.Instance)
          (NewSingleton (counted create)) (Probe.start w)).1 = List.replicate N (v, none)
    ∧ (Singleton.run Singleton.Cleanup (List.replicate N Call.Instance)
          (NewSingleton (counted create)) (Probe.start w)).2.2.createdCount = 1
    ∧ (Singleton.observed create cleanup (List.replicate 0 Call.Instance) w).2.2.createdCount = 0
    ∧ (Singleton.run Singleton.Cleanup (List.replicate 0 Call.Instance)
          (NewSingleton (counted create)) (Probe.start w)).2.2.createdCount = 0 := by
  obtain ⟨n, rfl⟩ : ∃ n, N = n + 1 := ⟨N - 1, by omega⟩
  simp only [Singleton.observed, Singleton.session, NewSingleton, NewSingletonWithCleanup]
  rw [Singleton.run_instances_first _ _ _ rfl n, Singleton.run_instances_first _ _ _ rfl n]
  simp [counted, Probe.start, hfirst, Singleton.run]

/-- C1, at the constructor of the test "only creates one" and three calls. -/
theorem singleton_memoizes_success_witness :
    (create42 ()).1 = (42, none) ∧ 1 ≤ 3
    ∧ (Singleton.observed create42 (some cleanupNop) (List.replicate 3 Call.Instance) ()).1
        = [(42, none), (42, none), (42, none)]
    ∧ (Singleton.observed create42 (some cleanupNop)
          (List.replicate 3 Call.Instance) ()).2.2.createdCount = 1 :=
  ⟨rfl, by decide,
    (singleton_memoizes_success create42 (some cleanupNop) () 42 rfl 3 (by decide)).1,
    (singleton_memoizes_success create42 (some cleanupNop) () 42 rfl 3 (by decide)).2.1⟩

/-- C2. Singleton memoizes failure: when the first invocation of the constructor
(in the world `w`) returns a non-nil error `e` (with whatever value `v`), then
`N ≥ 1` sequential `Instance` calls on a fresh Singleton each return that error
`e` (and the value `v`), and the constructor has been invoked exactly once: its
counter is 1 and the world is the one left by its first invocation, whatever a
second invocation would have returned. -/
theorem singleton_memoizes_failure {W T E : Type} [Inhabited T]
    (create : W → (T × Option E) × W) (cleanup : Option (T → W → W))
    (w : W) (v : T) (e : E) (hfirst : (create w).1 = (v, some e)) (N : Nat) (hN : 1 ≤ N) :
    (Singleton.observed create cleanup (List.replicate N Call.Instance) w).1
        = List.replicate N (v, some e)
    ∧ (Singleton.observed create cleanup (List.replicate N Call.Instance) w).2.2.createdCount = 1
    ∧ (Singleton.observed create cleanup (List.replicate N Call.Instance) w).2.2.world
        = (create w).2
    ∧ (Singleton.run Singleton.Cleanup (List.replicate N Call.Instance)
          (NewSingleton (counted create)) (Probe.start w)).1 = List.replicate N (v, some e)
    ∧ (Singleton.run Singleton.Cleanup (List.replicate N Call.Instance)
          (NewSingleton (counted create)) (Probe.start w)).2.2.createdCount = 1 := by
  obtain ⟨n, rfl⟩ : ∃ n, N = n + 1 := ⟨N - 1, by omega⟩
  simp only [Singleton.observed, Singleton.session, NewSingleton, NewSingletonWithCleanup]
  rw [Singleton.run_instances_first _ _ _ rfl n, Singleton.run_instances_first _ _ _ rfl n]
  simp [counted, Probe.start, hfirst]

/-- C2, at a constructor that fails on its first invocation only, and three calls:
the second invocation would have succeeded, and is never made. -/
theorem singleton_memoizes_failure_witness :
    (createFailFirst 0).1 = (0, some "ah") ∧ (createFailFirst 1).1 = (42, none) ∧ 1 ≤ 3
    ∧ (Singleton.observed createFailFirst (none : Option (Nat → Nat → Nat))
          (List.replicate 3 Call.Instance) 0).1
        = [(0, some "ah"), (0, some "ah"), (0, some "ah")]
    ∧ (Singleton.observed createFailFirst (none : Option (Nat → Nat → Nat))
          (List.replicate 3 Call.Instance) 0).2.2.createdCount = 1 :=
  ⟨rfl, rfl, by decide,
    (singleton_memoizes_failure createFailFirst none 0 0 "ah" rfl 3 (by decide)).1,
    (singleton_memoizes_failure createFailFirst none 0 0 "ah" rfl 3 (by decide)).2.1⟩

/-! ## C3, C4: Singleton cleanup -/

theorem Singleton.run_cleanups_inert {W T E : Type} (calls : List Call)
    (hc : ∀ c ∈ calls, c = Call.Cleanup ∨ c = Call.Handle) (s : Singleton W T E) (w : W)
    (h : s.cleanup = none ∨ s.wasCreated.Load = false ∨ s.cleanupOnce.done = true) :
    Singleton.run Singleton.Cleanup calls s w = ([], s, w) := by
  induction calls with
  | nil => simp [Singleton.run]
  | cons c cs ih =>
    have hcs : ∀ c ∈ cs, c = Call.Cleanup ∨ c = Call.Handle :=
      fun c hmem => hc c (List.mem_cons_of_mem _ hmem)
    rcases hc c (List.mem_cons_self _ _) with rfl | rfl <;>
      simp [Singleton.run, Singleton.Cleanup_inert s w h, ih hcs]

theorem Singleton.run_cleanups_fire {W T E : Type} (calls : List Call) (hne : calls ≠ [])
    (hc : ∀ c ∈ calls, c = Call.Cleanup ∨ c = Call.Handle) (s : Singleton W T E) (w : W)
    (cleanup : T → W → W) (hcl : s.cleanup = some cleanup)
    (hw : s.wasCreated.Load = true) (hd : s.cleanupOnce.done = false) :
    Singleton.run Singleton.Cleanup calls s w =
      ([], { s with cleanupOnce := { done := true } }, cleanup s.inst w) := by
  cases calls with
  | nil => exact absurd rfl hne
  | cons c cs =>
    have hcs : ∀ c ∈ cs, c = Call.Cleanup ∨ c = Call.Handle :=
      fun c hmem => hc c (List.mem_cons_of_mem _ hmem)
    rcases hc c (List.mem_cons_self _ _) with rfl | rfl <;>
      simp only [Singleton.run, Singleton.Cleanup_fires s w cleanup hcl hw hd] <;>
      exact Singleton.run_cleanups_inert cs hcs _ _ (Or.inr (Or.inr rfl))

/-- C3. Singleton cleanup fires exactly once after success: on a Singleton built
with `NewSingletonWithCleanup` and a cleanup function, when the constructor's
first invocation returns `(v, nil)`, then after `M ≥ 1` `Instance` calls any
non-empty sequence of `Cleanup` calls, each through the method or through the
returned handle, invokes the cleanup function exactly once in total, with the
argument `v`: the recorded arguments are `[v]` and the world is the one left by
one constructor invocation followed by one `cleanup v`. -/
theorem singleton_cleanup_once {W T E : Type} [Inhabited T]
    (create : W → (T × Option E) × W) (cleanup : T → W → W)
    (w : W) (v : T) (hfirst : (create w).1 = (v, none)) (M : Nat) (hM : 1 ≤ M)
    (cleanups : List Call) (hK : cleanups ≠ [])
    (hc : ∀ c ∈ cleanups, c = Call.Cleanup ∨ c = Call.Handle) :
    (Singleton.observed create (some cleanup)
        (List.replicate M Call.Instance ++ cleanups) w).2.2.cleanupStack = [v]
    ∧ (Singleton.observed create (some cleanup)
        (List.replicate M Call.Instance ++ cleanups) w).2.2.world = cleanup v (create w).2
    ∧ (Singleton.observed create (some cleanup)
        (List.replicate M Call.Instance ++ cleanups) w).2.2.createdCount = 1 := by
  obtain ⟨m, rfl⟩ : ∃ m, M = m + 1 := ⟨M - 1, by omega⟩
  simp only [Singleton.observed, Singleton.session, NewSingletonWithCleanup]
  rw [Singleton.run_append, Singleton.run_instances_first _ _ _ rfl m]
  simp only [Option.map_some']
  rw [Singleton.run_cleanups_fire cleanups hK hc _ _ (recorded cleanup) rfl
    (by simp [counted, Probe.start, hfirst, AtomicBool.Load, b32]) rfl]
  simp [counted, Probe.start, hfirst, recorded]

/-- C3, at the test "cleanup is only called once": one `Instance` call, then the
handle twice and the method once. -/
theorem singleton_cleanup_once_witness :
    (create42 ()).1 = (42, none) ∧ 1 ≤ 1
    ∧ [Call.Handle, Call.Handle, Call.Cleanup] ≠ []
    ∧ (Singleton.observed create42 (some cleanupNop)
        (List.replicate 1 Call.Instance ++ [Call.Handle, Call.Handle, Call.Cleanup])
        ()).2.2.cleanupStack = [42] :=
  ⟨rfl, by decide, by simp,
    (singleton_cleanup_once create42 cleanupNop () 42 rfl 1 (by decide)
      [Call.Handle, Call.Handle, Call.Cleanup] (by simp) (by simp)).1⟩

theorem Singleton.run_not_created {W T E : Type} (create : W → (T × Option E) × W)
    (calls : List Call) (s : Singleton (Probe W T) T E) (p : Probe W T)
    (hcr : s.create = counted create) (hw : s.wasCreated.Load = false)
    (hp : p.cleanupStack = [])
    (h : Call.Instance ∉ calls ∨ s.createdOnce.done = true ∨ (create p.world).1.2 ≠ none) :
    (Singleton.run Singleton.Cleanup calls s p).2.2.cleanupStack = [] := by
  induction calls generalizing s p with
  | nil => simpa [Singleton.run] using hp
  | cons c cs ih =>
    cases c with
    | Instance =>
      cases hd : s.createdOnce.done with
      | true =>
        simp only [Singleton.run, Singleton.Instance_done s p hd]
        exact ih s p hcr hw hp (Or.inr (Or.inl hd))
      | false =>
        have hfail : (create p.world).1.2 ≠ none := by simpa [hd] using h
        simp only [Singleton.run, Singleton.Instance_first s p hd]
        refine ih _ _ (by simpa using hcr) ?_ ?_ (Or.inr (Or.inl rfl))
        · cases hr : (create p.world).1.2 with
          | none => exact absurd hr hfail
          | some e => simp [hcr, counted, hr, AtomicBool.Load, b32]
        · simpa [hcr, counted] using hp
    | Cleanup =>
      simp only [Singleton.run, Singleton.Cleanup_inert s p (Or.inr (Or.inl hw))]
      refine ih s p hcr hw hp ?_
      rcases h with h | h
      · exact Or.inl (fun hmem => h (List.mem_cons_of_mem _ hmem))
      · exact Or.inr h
    | Handle =>
      simp only [Singleton.run, Singleton.Cleanup_inert s p (Or.inr (Or.inl hw))]
      refine ih s p hcr hw hp ?_
      rcases h with h | h
      · exact Or.inl (fun hmem => h (List.mem_cons_of_mem _ hmem))
      · exact Or.inr h

/-- C4. Singleton cleanup gating: on a Singleton built with
`NewSingletonWithCleanup` and a cleanup function, if `Instance` is never called,
or the constructor's first invocation returns a non-nil error, then no sequence
of calls (any number of `Cleanup` calls, through the method or the handle, in any
order with the `Instance` calls) invokes the cleanup function: no argument is
recorded. -/
theorem singleton_cleanup_gating {W T E : Type} [Inhabited T]
    (create : W → (T × Option E) × W) (cleanup : T → W → W) (w : W) (calls : List Call)
    (h : Call.Instance ∉ calls ∨ (create w).1.2 ≠ none) :
    (Singleton.observed create (some cleanup) calls w).2.2.cleanupStack = [] := by
  simp only [Singleton.observed, Singleton.session, NewSingletonWithCleanup]
  refine Singleton.run_not_created create calls _ _ rfl rfl rfl ?_
  rcases h with h | h
  · exact Or.inl h
  · exact Or.inr (Or.inr h)

/-- C4, at the tests "cleanup is not called when an instance was not wasCreated"
(no `Instance` call) and "cleanup is not called when an error occurred". -/
theorem singleton_cleanup_gating_witness :
    Call.Instance ∉ [Call.Handle, Call.Cleanup] ∧ (createAh ()).1.2 ≠ none
    ∧ (Singleton.observed create42 (some cleanupNop)
        [Call.Handle, Call.Cleanup] ()).2.2.cleanupStack = []
    ∧ (Singleton.observed createAh (some cleanupNop)
        [Call.Instance, Call.Handle, Call.Cleanup] ()).2.2.cleanupStack = [] :=
  ⟨by decide, by simp [createAh],
    singleton_cleanup_gating create42 cleanupNop () [Call.Handle, Call.Cleanup]
      (Or.inl (by decide)),
    singleton_cleanup_gating createAh cleanupNop () [Call.Instance, Call.Handle, Call.Cleanup]
      (Or.inr (by simp [createAh]))⟩

/-! ## Transient: one call -/

theorem Transient.cleanupLoop_take {W T : Type} (cleanup : T → W → W) (instances : List T)
    (n : Nat) (hn : n ≤ instances.length) (w : W) :
    Transient.cleanupLoop cleanup instances n w =
      (instances.take n).reverse.foldl (fun acc x => cleanup x acc) w := by
  induction n generalizing w with
  | zero => simp [Transient.cleanupLoop]
  | succ n ih =>
    have hlt : n < instances.length := by omega
    rw [Transient.cleanupLoop]
    simp only [List.getElem?_eq_getElem hlt]
    rw [ih (by omega), List.take_succ, List.getElem?_eq_getElem hlt]
    simp only [Option.toList, List.reverse_append, List.reverse_cons, List.reverse_nil,
      List.nil_append, List.singleton_append, List.foldl_cons]

theorem Transient.cleanupLoop_eq {W T : Type} (cleanup : T → W → W) (instances : List T)
    (w : W) :
    Transient.cleanupLoop cleanup instances instances.length w =
      instances.reverse.foldl (fun acc x => cleanup x acc) w := by
  rw [Transient.cleanupLoop_take cleanup instances _ (le_refl _), List.take_length]

theorem foldl_recorded {W T : Type} (cleanup : T → W → W) (xs : List T) (p : Probe W T) :
    xs.foldl (fun acc x => recorded cleanup x acc) p =
      { world := xs.foldl (fun acc x => cleanup x acc) p.world
        createdCount := p.createdCount
        cleanupStack := p.cleanupStack ++ xs } := by
  induction xs generalizing p with
  | nil => simp
  | cons x xs ih =>
    simp only [List.foldl_cons]
    rw [ih]
    simp [recorded]

theorem successes_cons {T E : Type} (r : T × Option E) (rs : List (T × Option E)) :
    successes (r :: rs) = successes [r] ++ successes rs := by
  cases hr : r.2 <;> simp [successes, List.filterMap_cons, hr]

theorem successes_append {T E : Type} (xs ys : List (T × Option E)) :
    successes (xs ++ ys) = successes xs ++ successes ys := by
  simp [successes, List.filterMap_append]

theorem mem_successes {T E : Type} (rs : List (T × Option E)) (x : T) :
    x ∈ successes rs ↔ (x, none) ∈ rs := by
  simp only [successes, List.mem_filterMap]
  constructor
  · rintro ⟨⟨a, b⟩, hmem, h⟩
    cases b with
    | none =>
      simp at h
      subst h
      exact hmem
    | some e => simp at h
  · intro h
    exact ⟨(x, none), h, by simp⟩

theorem Transient.Instance_observed {W T E : Type} (create : W → (T × Option E) × W)
    (cleanup : T → W → W) (insts : List T) (p : Probe W T) :
    Transient.Instance
        ({ create := counted create, instances := insts, cleanup := some (recorded cleanup) } :
          Transient (Probe W T) T E) p =
      ((create p.world).1,
       { create := counted create
         instances := insts ++ successes [(create p.world).1]
         cleanup := some (recorded cleanup) },
       { world := (create p.world).2
         createdCount := p.createdCount + 1
         cleanupStack := p.cleanupStack }) := by
  cases hr : (create p.world).1.2 <;>
    simp [Transient.Instance, counted, successes, hr, Prod.ext_iff]

theorem Transient.Cleanup_observed {W T E : Type} (create : W → (T × Option E) × W)
    (cleanup : T → W → W) (insts : List T) (p : Probe W T) :
    Transient.Cleanup
        ({ create := counted create, instances := insts, cleanup := some (recorded cleanup) } :
          Transient (Probe W T) T E) p =
      ({ create := counted create, instances := [], cleanup := some (recorded cleanup) },
       { world := insts.reverse.foldl (fun acc x => cleanup x acc) p.world
         createdCount := p.createdCount
         cleanupStack := p.cleanupStack ++ insts.reverse }) := by
  simp only [Transient.Cleanup]
  rw [Transient.cleanupLoop_eq, foldl_recorded]

/-! ## Transient: sequences of calls -/

theorem Transient.run_concat {W T E : Type} (h : Transient W T E → W → Transient W T E × W)
    (xs ys : List Call) (t : Transient W T E) (w : W) :
    Transient.run h (xs ++ ys) t w =
      ((Transient.run h xs t w).1 ++
          (Transient.run h ys (Transient.run h xs t w).2.1 (Transient.run h xs t w).2.2).1,
       (Transient.run h ys (Transient.run h xs t w).2.1 (Transient.run h xs t w).2.2).2) := by
  induction xs generalizing t w with
  | nil => simp [Transient.run]
  | cons c cs ih => cases c <;> simp [Transient.run, ih]

theorem Transient.run_instances {W T E : Type}
    (h : Transient W T E → W → Transient W T E × W) (t : Transient W T E) (w : W) (n : Nat) :
    Transient.run h (List.replicate n Call.Instance) t w =
      ((invocations t.create n w).1,
       { t with instances :=
           t.instances ++ (if t.cleanup.isSome then successes (invocations t.create n w).1 else []) },
       (invocations t.create n w).2) := by
  induction n generalizing t w with
  | zero => simp [Transient.run, invocations, successes]
  | succ n ih =>
    rw [List.replicate_succ, Transient.run, ih]
    cases hc : t.cleanup <;> cases hr : (t.create w).1.2 <;>
      simp [Transient.Instance, invocations, hc, hr, successes, List.filterMap_cons,
        Prod.ext_iff]

theorem invocations_counted {W T E : Type} (create : W → (T × Option E) × W) (n : Nat)
    (p : Probe W T) :
    invocations (counted create) n p =
      ((invocations create n p.world).1,
       { world := (invocations create n p.world).2
         createdCount := p.createdCount + n
         cleanupStack := p.cleanupStack }) := by
  induction n generalizing p with
  | zero => simp [invocations]
  | succ n ih => simp [invocations, ih, counted]; omega

theorem Transient.run_instances_observed {W T E : Type} (create : W → (T × Option E) × W)
    (cleanup : T → W → W) (insts : List T) (p : Probe W T) (n : Nat) :
    Transient.run Transient.Cleanup (List.replicate n Call.Instance)
        ({ create := counted create, instances := insts, cleanup := some (recorded cleanup) } :
          Transient (Probe W T) T E) p =
      ((invocations create n p.world).1,
       { create := counted create
         instances := insts ++ successes (invocations create n p.world).1
         cleanup := some (recorded cleanup) },
       { world := (invocations create n p.world).2
         createdCount := p.createdCount + n
         cleanupStack := p.cleanupStack }) := by
  rw [Transient.run_instances]
  simp [invocations_counted]

theorem Transient.run_cleanup_call {W T E : Type} (c : Call)
    (hc : c = Call.Cleanup ∨ c = Call.Handle) (cs : List Call) (t : Transient W T E) (w : W) :
    Transient.run Transient.Cleanup (c :: cs) t w =
      Transient.run Transient.Cleanup cs (t.Cleanup w).1 (t.Cleanup w).2 := by
  rcases hc with rfl | rfl <;> simp [Transient.run]

/-! ## C5: Transient never caches -/

/-- C6. Transient cleanup ordering: on a Transient built with
`NewTransientWithCleanup` and a cleanup function, after `N` `Instance` calls whose
successful results are, in call order, `x1, ..., xn`, a `Cleanup` call (method or
handle) invokes the cleanup function exactly `n` times, with the arguments
`xn, ..., x1` in that order, and leaves the world that those invocations produce;
a second `Cleanup` call right after it invokes the cleanup function zero more
times and leaves the world as it is. -/
theorem transient_cleanup_reverse {W T E : Type} (create : W → (T × Option E) × W)
    (cleanup : T → W → W) (w : W) (N : Nat) (c1 c2 : Call)
    (h1 : c1 = Call.Cleanup ∨ c1 = Call.Handle) (h2 : c2 = Call.Cleanup ∨ c2 = Call.Handle) :
    (Transient.observed create (some cleanup)
        (List.replicate N Call.Instance ++ [c1]) w).2.2.cleanupStack
      = (successes (Transient.observed create (some cleanup)
          (List.replicate N Call.Instance) w).1).reverse
    ∧ (Transient.observed create (some cleanup)
        (List.replicate N Call.Instance ++ [c1]) w).2.2.world
      = (successes (invocations create N w).1).reverse.foldl (fun acc x => cleanup x acc)
          (invocations create N w).2
    ∧ (Transient.observed create (some cleanup)
        (List.replicate N Call.Instance ++ [c1, c2]) w).2.2.cleanupStack
      = (Transient.observed create (some cleanup)
        (List.replicate N Call.Instance ++ [c1]) w).2.2.cleanupStack
    ∧ (Transient.observed create (some cleanup)
        (List.replicate N Call.Instance ++ [c1, c2]) w).2.2.world
      = (Transient.observed create (some cleanup)
        (List.replicate N Call.Instance ++ [c1]) w).2.2.world := by
  simp only [Transient.observed, Transient.session, NewTransientWithCleanup, Option.map_some',
    Transient.run_concat, Transient.run_instances_observed,
    Transient.run_cleanup_call c1 h1, Transient.run_cleanup_call c2 h2,
    Transient.Cleanup_observed, Transient.run]
  simp [Probe.start]

/-- C6, at the test "cleanup is called only once for each successfully wasCreated
instance in reverse order": three instances `1, 2, 3`, then the handle twice. -/
theorem transient_cleanup_reverse_witness :
    (Call.Handle = Call.Cleanup ∨ Call.Handle = Call.Handle)
    ∧ (Transient.observed createCount (some cleanupNop)
        (List.replicate 3 Call.Instance) 0).1 = [(1, none), (2, none), (3, none)]
    ∧ (Transient.observed createCount (some cleanupNop)
        (List.replicate 3 Call.Instance ++ [Call.Handle]) 0).2.2.cleanupStack = [3, 2, 1]
    ∧ (Transient.observed createCount (some cleanupNop)
        (List.replicate 3 Call.Instance ++ [Call.Handle, Call.Handle]) 0).2.2.cleanupStack
      = [3, 2, 1] :=
  have h := transient_cleanup_reverse createCount cleanupNop 0 3 Call.Handle Call.Handle
    (Or.inr rfl) (Or.inr rfl)
  have hres : (Transient.observed createCount (some cleanupNop)
      (List.replicate 3 Call.Instance) 0).1 = [(1, none), (2, none), (3, none)] := by
    simp [Transient.observed, Transient.session, NewTransientWithCleanup, Transient.run,
      Transient.Instance, counted, createCount, Probe.start]
  have hstack : (Transient.observed createCount (some cleanupNop)
      (List.replicate 3 Call.Instance ++ [Call.Handle]) 0).2.2.cleanupStack = [3, 2, 1] := by
    rw [h.1, hres]
    simp [successes]
  ⟨Or.inr rfl, hres, hstack, h.2.2.1.trans hstack⟩

/-! ## Transient: interleaved calls -/

theorem Transient.run_Instance_observed {W T E : Type} (create : W → (T × Option E) × W)
    (cleanup : T → W → W) (cs : List Call) (insts : List T) (p : Probe W T) :
    Transient.run Transient.Cleanup (Call.Instance :: cs)
        ({ create := counted create, instances := insts, cleanup := some (recorded cleanup) } :
          Transient (Probe W T) T E) p =
      ((create p.world).1 ::
        (Transient.run Transient.Cleanup cs
          ({ create := counted create
             instances := insts ++ successes [(create p.world).1]
             cleanup := some (recorded cleanup) } : Transient (Probe W T) T E)
          { world := (create p.world).2
            createdCount := p.createdCount + 1
            cleanupStack := p.cleanupStack }).1,
       (Transient.run Transient.Cleanup cs
          ({ create := counted create
             instances := insts ++ successes [(create p.world).1]
             cleanup := some (recorded cleanup) } : Transient (Probe W T) T E)
          { world := (create p.world).2
            createdCount := p.createdCount + 1
            cleanupStack := p.cleanupStack }).2) := by
  rw [Transient.run, Transient.Instance_observed]

theorem Transient.run_Cleanup_observed {W T E : Type} (create : W → (T × Option E) × W)
    (cleanup : T → W → W) (c : Call) (hc : c = Call.Cleanup ∨ c = Call.Handle)
    (cs : List Call) (insts : List T) (p : Probe W T) :
    Transient.run Transient.Cleanup (c :: cs)
        ({ create := counted create, instances := insts, cleanup := some (recorded cleanup) } :
          Transient (Probe W T) T E) p =
      Transient.run Transient.Cleanup cs
        ({ create := counted create, instances := [], cleanup := some (recorded cleanup) } :
          Transient (Probe W T) T E)
        { world := insts.reverse.foldl (fun acc x => cleanup x acc) p.world
          createdCount := p.createdCount
          cleanupStack := p.cleanupStack ++ insts.reverse } := by
  rw [Transient.run_cleanup_call c hc, Transient.Cleanup_observed]

theorem Transient.run_shape {W T E : Type} (create : W → (T × Option E) × W)
    (cleanup : T → W → W) (calls : List Call) (insts : List T) (p : Probe W T) :
    (Transient.run Transient.Cleanup calls
        ({ create := counted create, instances := insts, cleanup := some (recorded cleanup) } :
          Transient (Probe W T) T E) p).2.1 =
      { create := counted create
        instances := (Transient.run Transient.Cleanup calls
          ({ create := counted create, instances := insts, cleanup := some (recorded cleanup) } :
            Transient (Probe W T) T E) p).2.1.instances
        cleanup := some (recorded cleanup) } := by
  induction calls generalizing insts p with
  | nil => simp [Transient.run]
  | cons c cs ih =>
    cases c with
    | Instance =>
      rw [Transient.run_Instance_observed]
      exact ih _ _
    | Cleanup =>
      rw [Transient.run_Cleanup_observed create cleanup _ (Or.inl rfl)]
      exact ih _ _
    | Handle =>
      rw [Transient.run_Cleanup_observed create cleanup _ (Or.inr rfl)]
      exact ih _ _

theorem Transient.run_accounting {W T E : Type} (create : W → (T × Option E) × W)
    (cleanup : T → W → W) (calls : List Call) (insts : List T) (p : Probe W T) :
    List.Perm
      ((Transient.run Transient.Cleanup calls
          ({ create := counted create, instances := insts, cleanup := some (recorded cleanup) } :
            Transient (Probe W T) T E) p).2.2.cleanupStack ++
        (Transient.run Transient.Cleanup calls
          ({ create := counted create, instances := insts, cleanup := some (recorded cleanup) } :
            Transient (Probe W T) T E) p).2.1.instances)
      (p.cleanupStack ++ insts ++
        successes (Transient.run Transient.Cleanup calls
          ({ create := counted create, instances := insts, cleanup := some (recorded cleanup) } :
            Transient (Probe W T) T E) p).1) := by
  induction calls generalizing insts p with
  | nil => simp [Transient.run, successes]
  | cons c cs ih =>
    have hclean : ∀ c, c = Call.Cleanup ∨ c = Call.Handle →
        List.Perm
          ((Transient.run Transient.Cleanup (c :: cs)
              ({ create := counted create, instances := insts,
                 cleanup := some (recorded cleanup) } : Transient (Probe W T) T E)
              p).2.2.cleanupStack ++
            (Transient.run Transient.Cleanup (c :: cs)
              ({ create := counted create, instances := insts,
                 cleanup := some (recorded cleanup) } : Transient (Probe W T) T E)
              p).2.1.instances)
          (p.cleanupStack ++ insts ++
            successes (Transient.run Transient.Cleanup (c :: cs)
              ({ create := counted create, instances := insts,
                 cleanup := some (recorded cleanup) } : Transient (Probe W T) T E) p).1) := by
      intro c hc
      rw [Transient.run_Cleanup_observed create cleanup c hc]
      refine (ih _ _).trans ?_
      simp only [List.append_nil]
      exact List.Perm.append_right _ (List.Perm.append_left _ (List.reverse_perm insts))
    cases c with
    | Instance =>
      rw [Transient.run_Instance_observed]
      refine (ih _ _).trans ?_
      simp only [List.append_assoc]
      rw [← successes_cons]
    | Cleanup => exact hclean _ (Or.inl rfl)
    | Handle => exact hclean _ (Or.inr rfl)

theorem Transient.run_all_failed {W T E : Type} (create : W → (T × Option E) × W)
    (cleanup : T → W → W) (calls : List Call) (p : Probe W T)
    (hfail : ∀ r ∈ (Transient.run Transient.Cleanup calls
        ({ create := counted create, instances := [], cleanup := some (recorded cleanup) } :
          Transient (Probe W T) T E) p).1, r.2 ≠ none) :
    (Transient.run Transient.Cleanup calls
        ({ create := counted create, instances := [], cleanup := some (recorded cleanup) } :
          Transient (Probe W T) T E) p).2.1.instances = []
    ∧ (Transient.run Transient.Cleanup calls
        ({ create := counted create, instances := [], cleanup := some (recorded cleanup) } :
          Transient (Probe W T) T E) p).2.2.cleanupStack = p.cleanupStack := by
  induction calls generalizing p with
  | nil => simp [Transient.run]
  | cons c cs ih =>
    cases c with
    | Instance =>
      rw [Transient.run_Instance_observed] at hfail ⊢
      have hhead : (create p.world).1.2 ≠ none := hfail _ (List.mem_cons_self _ _)
      have hnil : successes [(create p.world).1] = [] := by
        cases hr : (create p.world).1.2 with
        | none => exact absurd hr hhead
        | some e => simp [successes, hr]
      simp only [hnil, List.append_nil] at hfail ⊢
      exact ih _ (fun r hr => hfail r (List.mem_cons_of_mem _ hr))
    | Cleanup =>
      rw [Transient.run_Cleanup_observed create cleanup _ (Or.inl rfl)] at hfail ⊢
      simpa using ih _ hfail
    | Handle =>
      rw [Transient.run_Cleanup_observed create cleanup _ (Or.inr rfl)] at hfail ⊢
      simpa using ih _ hfail

theorem Transient.run_observed_state {W T E : Type} (create : W → (T × Option E) × W)
    (cleanup : T → W → W) (calls : List Call) (insts : List T) (p : Probe W T) :
    ∃ res insts1 p1,
      Transient.run Transient.Cleanup calls
        ({ create := counted create, instances := insts, cleanup := some (recorded cleanup) } :
          Transient (Probe W T) T E) p =
      (res, { create := counted create, instances := insts1,
              cleanup := some (recorded cleanup) }, p1) := by
  have hs := Transient.run_shape create cleanup calls insts p
  rcases hR : Transient.run Transient.Cleanup calls
      ({ create := counted create, instances := insts, cleanup := some (recorded cleanup) } :
        Transient (Probe W T) T E) p with ⟨res, t1, p1⟩
  rw [hR] at hs
  exact ⟨res, t1.instances, p1, congrArg (fun t => (res, t, p1)) hs⟩

theorem Transient.run_cleanup_after_failed {W T E : Type} (create : W → (T × Option E) × W)
    (cleanup : T → W → W) (calls : List Call) (p : Probe W T)
    (c : Call) (hc : c = Call.Cleanup ∨ c = Call.Handle)
    (hfail : ∀ r ∈ (Transient.run Transient.Cleanup calls
        ({ create := counted create, instances := [], cleanup := some (recorded cleanup) } :
          Transient (Probe W T) T E) p).1, r.2 ≠ none) :
    (Transient.run Transient.Cleanup (calls ++ [c])
        ({ create := counted create, instances := [], cleanup := some (recorded cleanup) } :
          Transient (Probe W T) T E) p).2.2.cleanupStack = p.cleanupStack := by
  have h := Transient.run_all_failed create cleanup calls p hfail
  obtain ⟨res, insts1, p1, hR⟩ := Transient.run_observed_state create cleanup calls [] p
  rw [hR] at h
  simp only at h
  rw [Transient.run_concat, hR]
  simp only
  rw [Transient.run_Cleanup_observed create cleanup c hc]
  simp [Transient.run, h.1, h.2]

theorem successes_eq_nil {T E : Type} (rs : List (T × Option E))
    (h : ∀ r ∈ rs, r.2 ≠ none) : successes rs = [] := by
  induction rs with
  | nil => simp [successes]
  | cons r rs ih =>
    rw [successes_cons, ih (fun x hx => h x (List.mem_cons_of_mem _ hx))]
    cases hr : r.2 with
    | none => exact absurd hr (h r (List.mem_cons_self _ _))
    | some e => simp [successes, hr]

/-! ## C7: Transient cleanup gating -/

/-- C7. Transient cleanup gating: on a Transient built with
`NewTransientWithCleanup` and a cleanup function, after `N` `Instance` calls
(successes and failures mixed as the constructor decides) the retained sequence
`instances` is exactly the list of the values returned with a nil error, in call
order; every argument a following `Cleanup` call passes to the cleanup function
is a value some `Instance` call returned with a nil error; and when every
`Instance` call failed, or none was made, `Cleanup` invokes the cleanup function
zero times. -/
theorem transient_cleanup_gating {W T E : Type} (create : W → (T × Option E) × W)
    (cleanup : T → W → W) (w : W) (N : Nat) (c : Call)
    (hc : c = Call.Cleanup ∨ c = Call.Handle) :
    (Transient.observed create (some cleanup) (List.replicate N Call.Instance) w).2.1.instances
      = successes (Transient.observed create (some cleanup) (List.replicate N Call.Instance) w).1
    ∧ (∀ x ∈ (Transient.observed create (some cleanup)
          (List.replicate N Call.Instance ++ [c]) w).2.2.cleanupStack,
        (x, none) ∈ (Transient.observed create (some cleanup)
          (List.replicate N Call.Instance) w).1)
    ∧ ((∀ r ∈ (Transient.observed create (some cleanup)
          (List.replicate N Call.Instance) w).1, r.2 ≠ none) →
        (Transient.observed create (some cleanup)
          (List.replicate N Call.Instance ++ [c]) w).2.2.cleanupStack = [])
    ∧ (Transient.observed create (some cleanup) [c] w).2.2.cleanupStack = [] := by
  simp only [Transient.observed, Transient.session, NewTransientWithCleanup, Option.map_some',
    Transient.run_concat, Transient.run_instances_observed,
    Transient.run_cleanup_call c hc, Transient.Cleanup_observed, Transient.run]
  refine ⟨by simp, ?_, ?_, by simp [Probe.start]⟩
  · intro x hx
    simpa [Probe.start, mem_successes] using hx
  · intro h
    simp [Probe.start, successes_eq_nil _ h]
    exact successes_eq_nil _ h

/-- C7, at the test "cleanup is not called when only errors occurred", and at a
constructor that fails once and then succeeds. -/
theorem transient_cleanup_gating_witness :
    (Call.Handle = Call.Cleanup ∨ Call.Handle = Call.Handle)
    ∧ (Transient.observed createAh (some cleanupNop)
        (List.replicate 1 Call.Instance ++ [Call.Handle]) ()).2.2.cleanupStack = []
    ∧ (Transient.observed createFailFirst (some cleanupNop)
        (List.replicate 3 Call.Instance) 0).1 = [(0, some "ah"), (42, none), (42, none)]
    ∧ (Transient.observed createFailFirst (some cleanupNop)
        (List.replicate 3 Call.Instance) 0).2.1.instances = [42, 42] :=
  have hres : (Transient.observed createFailFirst (some cleanupNop)
      (List.replicate 3 Call.Instance) 0).1 = [(0, some "ah"), (42, none), (42, none)] := by
    simp [Transient.observed, Transient.session, NewTransientWithCleanup, Transient.run,
      Transient.Instance, counted, createFailFirst, Probe.start]
  ⟨Or.inr rfl,
    (transient_cleanup_gating createAh cleanupNop () 1 Call.Handle (Or.inr rfl)).2.2.1
      (by simp [Transient.observed, Transient.session, NewTransientWithCleanup, Transient.run,
        Transient.Instance, counted, createAh, Probe.start]),
    hres,
    ((transient_cleanup_gating createFailFirst cleanupNop 0 3 Call.Handle (Or.inr rfl)).1).trans
      (by rw [hres]; simp [successes])⟩

/-! ## C8: Transient cleans each instance only once -/

/-- C8. Transient cleans each instance only once: on a Transient built with
`NewTransientWithCleanup` and a cleanup function, for every interleaved sequence
of `Instance` and `Cleanup` calls (method or handle):
(1) the arguments passed to the cleanup function together with the instances
still retained are, as a multiset, exactly the successfully created instances,
so no instance is cleaned more than once;
(2) with no `Cleanup` call the cleanup function is not invoked;
(3) when `c` is the last `Cleanup` call of the sequence (only `Instance` calls
follow it), the arguments passed to the cleanup function over the whole sequence
are, as a multiset, exactly the instances successfully created before `c` (each
of them cleaned exactly once), and the retained ones are exactly those created
after `c`;
(4) a `Cleanup` call `c2` made when every `Instance` call since the previous
`Cleanup` call `c` failed (or none was made) invokes the cleanup function zero
times;
(5) likewise a `Cleanup` call made when every `Instance` call since
construction failed (or none was made). -/
theorem transient_cleans_each_once {W T E : Type} (create : W → (T × Option E) × W)
    (cleanup : T → W → W) (w : W) (calls pre post : List Call) (c c2 : Call)
    (hc : c = Call.Cleanup ∨ c = Call.Handle) (hc2 : c2 = Call.Cleanup ∨ c2 = Call.Handle) :
    List.Perm
        ((Transient.observed create (some cleanup) calls w).2.2.cleanupStack ++
          (Transient.observed create (some cleanup) calls w).2.1.instances)
        (successes (Transient.observed create (some cleanup) calls w).1)
    ∧ ((∀ d ∈ calls, d = Call.Instance) →
        (Transient.observed create (some cleanup) calls w).2.2.cleanupStack = [])
    ∧ ((∀ d ∈ post, d = Call.Instance) →
        List.Perm (Transient.observed create (some cleanup) (pre ++ c :: post) w).2.2.cleanupStack
          (successes (Transient.observed create (some cleanup) pre w).1)
        ∧ (Transient.observed create (some cleanup) (pre ++ c :: post) w).2.1.instances
          = successes ((Transient.observed create (some cleanup) (pre ++ c :: post) w).1.drop
              (Transient.observed create (some cleanup) pre w).1.length))
    ∧ ((∀ r ∈ (Transient.observed create (some cleanup) (pre ++ c :: post) w).1.drop
            (Transient.observed create (some cleanup) pre w).1.length, r.2 ≠ none) →
        (Transient.observed create (some cleanup) ((pre ++ c :: post) ++ [c2]) w).2.2.cleanupStack
          = (Transient.observed create (some cleanup) (pre ++ c :: post) w).2.2.cleanupStack)
    ∧ ((∀ r ∈ (Transient.observed create (some cleanup) calls w).1, r.2 ≠ none) →
        (Transient.observed create (some cleanup) (calls ++ [c2]) w).2.2.cleanupStack = []) := by
  simp only [Transient.observed, Transient.session, NewTransientWithCleanup, Option.map_some']
  obtain ⟨res1, insts1, p1, hR⟩ :=
    Transient.run_observed_state (E := E) create cleanup pre [] (Probe.start w)
  have hacc : List.Perm (p1.cleanupStack ++ insts1) (successes res1) := by
    have h := Transient.run_accounting (E := E) create cleanup pre [] (Probe.start w)
    rw [hR] at h
    simpa [Probe.start] using h
  refine ⟨?_, ?_, ?_, ?_, ?_⟩
  · simpa [Probe.start] using
      Transient.run_accounting (E := E) create cleanup calls [] (Probe.start w)
  · intro hall
    rw [List.eq_replicate_of_mem hall, Transient.run_instances_observed]
    rfl
  · intro hall
    rw [List.eq_replicate_of_mem hall, Transient.run_concat, hR]
    simp only
    rw [Transient.run_Cleanup_observed create cleanup c hc, Transient.run_instances_observed]
    simp only [List.nil_append, List.drop_left]
    exact ⟨(List.Perm.append_left _ (List.reverse_perm insts1)).trans hacc, trivial⟩
  · rw [Transient.run_concat _ (pre ++ c :: post), Transient.run_concat _ pre, hR]
    simp only
    rw [Transient.run_Cleanup_observed create cleanup c hc]
    simp only [List.drop_left]
    intro hfail
    obtain ⟨res2, insts2, p2, hR2⟩ :=
      Transient.run_observed_state (E := E) create cleanup post []
        { world := insts1.reverse.foldl (fun acc x => cleanup x acc) p1.world
          createdCount := p1.createdCount
          cleanupStack := p1.cleanupStack ++ insts1.reverse }
    have h := Transient.run_all_failed create cleanup post _ hfail
    rw [hR2] at h ⊢
    simp only at h ⊢
    rw [Transient.run_Cleanup_observed create cleanup c2 hc2]
    simp [Transient.run, h.1]
  · intro hfail
    exact Transient.run_cleanup_after_failed create cleanup calls (Probe.start w) c2 hc2 hfail

/-- C8, at the constructor of the test "cleanup is called only once for each
successfully wasCreated instance in reverse order": instances 1 and 2, a
`Cleanup`, instance 3: the cleanup function received 1 and 2, each once, and a
further `Cleanup` receives 3 only. -/
theorem transient_cleans_each_once_witness :
    (Call.Cleanup = Call.Cleanup ∨ Call.Cleanup = Call.Handle)
    ∧ (Call.Handle = Call.Cleanup ∨ Call.Handle = Call.Handle)
    ∧ (∀ d ∈ [Call.Instance], d = Call.Instance)
    ∧ (Transient.observed createCount (some cleanupNop)
        [Call.Instance, Call.Instance] 0).1 = [(1, none), (2, none)]
    ∧ List.Perm
        (Transient.observed createCount (some cleanupNop)
          ([Call.Instance, Call.Instance] ++ Call.Cleanup :: [Call.Instance]) 0).2.2.cleanupStack
        [1, 2]
    ∧ (Transient.observed createCount (some cleanupNop)
        [Call.Instance, Call.Instance, Call.Cleanup, Call.Instance, Call.Handle]
        0).2.2.cleanupStack = [2, 1, 3] :=
  have hres : (Transient.observed createCount (some cleanupNop)
      [Call.Instance, Call.Instance] 0).1 = [(1, none), (2, none)] := by
    simp [Transient.observed, Transient.session, NewTransientWithCleanup, Transient.run,
      Transient.Instance, counted, createCount, Probe.start]
  have h := transient_cleans_each_once createCount cleanupNop 0 []
    [Call.Instance, Call.Instance] [Call.Instance] Call.Cleanup Call.Handle
    (Or.inl rfl) (Or.inr rfl)
  ⟨Or.inl rfl, Or.inr rfl, by simp, hres,
    (h.2.2.1 (by simp)).1.trans (by rw [hres]; simp [successes]),
    by simp [Transient.observed, Transient.session, NewTransientWithCleanup, Transient.run,
      Transient.Instance, Transient.Cleanup, Transient.cleanupLoop, counted, recorded,
      createCount, cleanupNop, Probe.start]⟩

/-! ## C9: MustInstance -/

/-- C9. MustInstance agrees with Instance: for a Singleton and for a Transient in
any state, `MustInstance` has exactly the state effects of the one `Instance`
call it makes; it panics with `e` if and only if that call returns the non-nil
error `e`; and it returns `v` if and only if that call returns `v` with a nil
error. -/
theorem mustInstance_agrees {W T E : Type} (s : Singleton W T E) (t : Transient W T E)
    (w : W) :
    (s.MustInstance w).2 = (s.Instance w).2
    ∧ (∀ e, (s.MustInstance w).1 = Except.error e ↔ (s.Instance w).1.2 = some e)
    ∧ (∀ v, (s.MustInstance w).1 = Except.ok v ↔
        ((s.Instance w).1.2 = none ∧ (s.Instance w).1.1 = v))
    ∧ (t.MustInstance w).2 = (t.Instance w).2
    ∧ (∀ e, (t.MustInstance w).1 = Except.error e ↔ (t.Instance w).1.2 = some e)
    ∧ (∀ v, (t.MustInstance w).1 = Except.ok v ↔
        ((t.Instance w).1.2 = none ∧ (t.Instance w).1.1 = v)) := by
  refine ⟨?_, ?_, ?_, ?_, ?_, ?_⟩
  · simp only [Singleton.MustInstance]
    split <;> rfl
  · intro e
    simp only [Singleton.MustInstance]
    split <;> simp_all
  · intro v
    simp only [Singleton.MustInstance]
    split <;> simp_all
  · simp only [Transient.MustInstance]
    split <;> rfl
  · intro e
    simp only [Transient.MustInstance]
    split <;> simp_all
  · intro v
    simp only [Transient.MustInstance]
    split <;> simp_all

/-! ## C10: the shape of an Instance result -/

theorem Singleton.Cleanup_frame {W T E : Type} (s : Singleton W T E) (w : W) :
    (s.Cleanup w).1 = { s with cleanupOnce := (s.Cleanup w).1.cleanupOnce } := by
  rcases s with ⟨co, cl, cr, cu, wc, i, e⟩
  cases cu with
  | none => simp [Singleton.Cleanup]
  | some f =>
    simp only [Singleton.Cleanup]
    split <;> rfl

theorem Singleton.run_results_shaped {W T E : Type} [Inhabited T]
    (create : W → (T × Option E) × W)
    (hzero : ∀ w, (create w).1.2 ≠ none → (create w).1.1 = default)
    (calls : List Call) (s : Singleton W T E) (w : W) (hcr : s.create = create)
    (hs : s.createdOnce.done = true → s.err ≠ none → s.inst = default) :
    ∀ r ∈ (Singleton.run Singleton.Cleanup calls s w).1,
      r.2 = none ∨ (r.1 = default ∧ r.2 ≠ none) := by
  induction calls generalizing s w with
  | nil => simp [Singleton.run]
  | cons c cs ih =>
    have hclean : ∀ r ∈ (Singleton.run Singleton.Cleanup cs (s.Cleanup w).1 (s.Cleanup w).2).1,
        r.2 = none ∨ (r.1 = default ∧ r.2 ≠ none) := by
      refine ih _ _ ?_ ?_
      · rw [Singleton.Cleanup_frame]
        exact hcr
      · rw [Singleton.Cleanup_frame]
        exact hs
    cases c with
    | Instance =>
      cases hd : s.createdOnce.done with
      | true =>
        simp only [Singleton.run, Singleton.Instance_done s w hd, List.mem_cons]
        rintro r (rfl | hr)
        · by_cases he : s.err = none
          · exact Or.inl he
          · exact Or.inr ⟨hs hd he, he⟩
        · exact ih s w hcr hs r hr
      | false =>
        simp only [Singleton.run, Singleton.Instance_first s w hd, List.mem_cons]
        rintro r (rfl | hr)
        · by_cases he : (s.create w).1.2 = none
          · exact Or.inl he
          · exact Or.inr ⟨by rw [hcr] at he ⊢; exact hzero w he, he⟩
        · refine ih _ _ ?_ ?_ r hr
          · exact hcr
          intro _ he
          simp only at he ⊢
          rw [hcr] at he ⊢
          exact hzero w he
    | Cleanup => simpa [Singleton.run] using hclean
    | Handle => simpa [Singleton.run] using hclean

theorem Transient.run_shaped_results {W T E : Type} [Inhabited T]
    (create : W → (T × Option E) × W)
    (hzero : ∀ w, (create w).1.2 ≠ none → (create w).1.1 = default)
    (calls : List Call) (t : Transient W T E) (w : W) (hcr : t.create = create) :
    ∀ r ∈ (Transient.run Transient.Cleanup calls t w).1,
      r.2 = none ∨ (r.1 = default ∧ r.2 ≠ none) := by
  induction calls generalizing t w with
  | nil => simp [Transient.run]
  | cons c cs ih =>
    have hclean : ∀ r ∈ (Transient.run Transient.Cleanup cs (t.Cleanup w).1 (t.Cleanup w).2).1,
        r.2 = none ∨ (r.1 = default ∧ r.2 ≠ none) := by
      refine ih _ _ ?_
      unfold Transient.Cleanup
      cases t.cleanup <;> exact hcr
    cases c with
    | Instance =>
      simp only [Transient.run, List.mem_cons]
      rintro r (rfl | hr)
      · simp only [Transient.Instance, hcr]
        by_cases he : (create w).1.2 = none
        · exact Or.inl he
        · exact Or.inr ⟨hzero w he, he⟩
      · refine ih _ _ ?_ r hr
        simp only [Transient.Instance]
        split <;> exact hcr
    | Cleanup => simpa [Transient.run] using hclean
    | Handle => simpa [Transient.run] using hclean

/-- C10, as stated, fails: the constructor `createBoth` returns the non-zero
value 7 together with a non-nil error, and `Instance` of a Singleton and of a
Transient hand that pair on; the result is neither a value with a nil error nor
the zero value with a non-nil error. -/
theorem instance_result_shape_counterexample :
    ((NewSingleton createBoth).Instance ()).1 = (7, some "ah")
    ∧ ((NewTransient createBoth).Instance ()).1 = (7, some "ah")
    ∧ ¬ (((NewSingleton createBoth).Instance ()).1.2 = none
        ∨ (((NewSingleton createBoth).Instance ()).1.1 = default
          ∧ ((NewSingleton createBoth).Instance ()).1.2 ≠ none))
    ∧ ¬ (((NewTransient createBoth).Instance ()).1.2 = none
        ∨ (((NewTransient createBoth).Instance ()).1.1 = default
          ∧ ((NewTransient createBoth).Instance ()).1.2 ≠ none)) := by
  have h1 : ((NewSingleton createBoth).Instance ()).1 = (7, some "ah") := by
    simp [NewSingleton, NewSingletonWithCleanup, Singleton.Instance, Once.Do, createBoth,
      AtomicBool.Swap]
  have h2 : ((NewTransient createBoth).Instance ()).1 = (7, some "ah") := by
    simp [NewTransient, NewTransientWithCleanup, Transient.Instance, createBoth]
  refine ⟨h1, h2, ?_, ?_⟩
  · rw [h1]
    simp [default]
  · rw [h2]
    simp [default]

/-- C10, amended. For every constructor that returns the zero value of `T`
whenever it returns a non-nil error, every `Instance` call in every sequence of
calls on a fresh Singleton or a fresh Transient returns either a value with a
nil error or the zero value of `T` with a non-nil error. -/
theorem instance_result_shape {W T E : Type} [Inhabited T]
    (create : W → (T × Option E) × W) (cleanup : Option (T → W → W))
    (hzero : ∀ w, (create w).1.2 ≠ none → (create w).1.1 = default)
    (calls : List Call) (w : W) :
    (∀ r ∈ (Singleton.session create cleanup calls w).1,
        r.2 = none ∨ (r.1 = default ∧ r.2 ≠ none))
    ∧ (∀ r ∈ (Transient.session create cleanup calls w).1,
        r.2 = none ∨ (r.1 = default ∧ r.2 ≠ none)) := by
  constructor
  · exact Singleton.run_results_shaped create hzero calls _ w rfl (by simp [NewSingletonWithCleanup])
  · exact Transient.run_shaped_results create hzero calls _ w rfl

/-- C10 amended, at the constructor `createAh` of the tests, which returns 0 with
its error. -/
theorem instance_result_shape_witness :
    (∀ w, (createAh w).1.2 ≠ none → (createAh w).1.1 = default)
    ∧ (∀ r ∈ (Singleton.session createAh (some cleanupNop)
          [Call.Instance, Call.Cleanup, Call.Instance] ()).1,
        r.2 = none ∨ (r.1 = default ∧ r.2 ≠ none))
    ∧ (∀ r ∈ (Transient.session createAh (some cleanupNop)
          [Call.Instance, Call.Cleanup, Call.Instance] ()).1,
        r.2 = none ∨ (r.1 = default ∧ r.2 ≠ none)) :=
  ⟨fun _ _ => rfl,
    (instance_result_shape createAh (some cleanupNop) (fun _ _ => rfl)
      [Call.Instance, Call.Cleanup, Call.Instance] ()).1,
    (instance_result_shape createAh (some cleanupNop) (fun _ _ => rfl)
      [Call.Instance, Call.Cleanup, Call.Instance] ()).2⟩

/-! ## C11: when the Singleton cleanup fires -/

theorem Singleton.run_settled {W T E : Type} (calls : List Call) (s : Singleton W T E) (w : W)
    (hd : s.createdOnce.done = true)
    (h : s.cleanup = none ∨ s.wasCreated.Load = false ∨ s.cleanupOnce.done = true) :
    (Singleton.run Singleton.Cleanup calls s w).2 = (s, w) := by
  induction calls with
  | nil => simp [Singleton.run]
  | cons c cs ih =>
    cases c <;>
      simp [Singleton.run, Singleton.Instance_done s w hd, Singleton.Cleanup_inert s w h, ih]

theorem Singleton.run_before_instance {W T E : Type} (pre : List Call)
    (hpre : Call.Instance ∉ pre) (s : Singleton W T E) (w : W)
    (h : s.cleanup = none ∨ s.wasCreated.Load = false ∨ s.cleanupOnce.done = true) :
    Singleton.run Singleton.Cleanup pre s w = ([], s, w) := by
  refine Singleton.run_cleanups_inert pre ?_ s w h
  intro c hmem
  cases c with
  | Instance => exact absurd hmem hpre
  | Cleanup => exact Or.inl rfl
  | Handle => exact Or.inr rfl

/-- C11, as stated, fails: with the constructor of the tests (which succeeds), a
first `Cleanup` call made before the first `Instance` call invokes nothing, and
the second `Cleanup` call, made after `Instance`, invokes the cleanup function
with 42: the cleanup function is invoked during a `Cleanup` call that is not the
first one of the sequence. -/
theorem singleton_cleanup_fires_counterexample :
    (Singleton.observed create42 (some cleanupNop) [Call.Cleanup] ()).2.2.cleanupStack = []
    ∧ (Singleton.observed create42 (some cleanupNop)
        [Call.Cleanup, Call.Instance] ()).2.2.cleanupStack = []
    ∧ (Singleton.observed create42 (some cleanupNop)
        [Call.Cleanup, Call.Instance, Call.Cleanup] ()).2.2.cleanupStack = [42] := by
  refine ⟨rfl, rfl, rfl⟩

/-- C11, amended. For every sequence of `Instance` and `Cleanup` calls on a
Singleton built with a cleanup function: if the construction fails, the cleanup
function is never invoked; `Cleanup` calls made before the first `Instance` call
invoke nothing; `Instance` calls invoke nothing; and when the construction
succeeds with `v`, the first `Cleanup` call `c` made after the first `Instance`
call invokes the cleanup function once, with `v`, and no later call invokes it
again. -/
theorem singleton_cleanup_fires {W T E : Type} [Inhabited T]
    (create : W → (T × Option E) × W) (cleanup : T → W → W) (w : W)
    (calls pre mid post : List Call) (c : Call)
    (hc : c = Call.Cleanup ∨ c = Call.Handle)
    (hpre : Call.Instance ∉ pre) (hmid : ∀ d ∈ mid, d = Call.Instance) :
    ((create w).1.2 ≠ none →
        (Singleton.observed create (some cleanup) calls w).2.2.cleanupStack = [])
    ∧ (Singleton.observed create (some cleanup) pre w).2.2.cleanupStack = []
    ∧ (Singleton.observed create (some cleanup)
        (pre ++ (Call.Instance :: mid)) w).2.2.cleanupStack = []
    ∧ (∀ v, (create w).1 = (v, none) →
        (Singleton.observed create (some cleanup)
          (pre ++ (Call.Instance :: mid) ++ [c]) w).2.2.cleanupStack = [v]
        ∧ (Singleton.observed create (some cleanup)
          (pre ++ (Call.Instance :: mid) ++ (c :: post)) w).2.2.cleanupStack = [v]) := by
  have hmid2 : Call.Instance :: mid = List.replicate (mid.length + 1) Call.Instance := by
    rw [List.replicate_succ, ← List.eq_replicate_of_mem hmid]
  have hfresh : ∀ (p : Probe W T),
      Singleton.run Singleton.Cleanup pre
        ({ createdOnce := { done := false }
           cleanupOnce := { done := false }
           create := counted create
           cleanup := some (recorded cleanup)
           wasCreated := { v := 0 }
           inst := default
           err := none } : Singleton (Probe W T) T E) p =
      ([], { createdOnce := { done := false }
             cleanupOnce := { done := false }
             create := counted create
             cleanup := some (recorded cleanup)
             wasCreated := { v := 0 }
             inst := default
             err := none }, p) :=
    fun p => Singleton.run_before_instance pre hpre _ p (Or.inr (Or.inl rfl))
  have hfire : ∀ (cs : List Call) (v : T), (create w).1 = (v, none) →
      (Singleton.observed create (some cleanup)
        (pre ++ (Call.Instance :: mid) ++ (c :: cs)) w).2.2.cleanupStack = [v] := by
    intro cs v hv
    simp only [Singleton.observed, Singleton.session, NewSingletonWithCleanup, Option.map_some']
    rw [Singleton.run_append, Singleton.run_append,
      hfresh, hmid2]
    simp only
    rw [Singleton.run_instances_first _ _ _ rfl]
    have hstep : ∀ (s : Singleton (Probe W T) T E) (p : Probe W T),
        Singleton.run Singleton.Cleanup (c :: cs) s p =
          Singleton.run Singleton.Cleanup cs (s.Cleanup p).1 (s.Cleanup p).2 := by
      intro s p
      rcases hc with rfl | rfl <;> simp [Singleton.run]
    simp only [hstep]
    rw [Singleton.Cleanup_fires _ _ (recorded cleanup) rfl
      (by simp [counted, Probe.start, hv, AtomicBool.Load, b32]) rfl]
    simp only
    rw [Singleton.run_settled cs _ _ rfl (Or.inr (Or.inr rfl))]
    simp [counted, Probe.start, hv, recorded]
  refine ⟨?_, ?_, ?_, ?_⟩
  · intro hfail
    simp only [Singleton.observed, Singleton.session, NewSingletonWithCleanup]
    exact Singleton.run_not_created create calls _ _ rfl rfl rfl (Or.inr (Or.inr hfail))
  · simp only [Singleton.observed, Singleton.session, NewSingletonWithCleanup, Option.map_some']
    rw [hfresh]
    rfl
  · simp only [Singleton.observed, Singleton.session, NewSingletonWithCleanup, Option.map_some']
    rw [Singleton.run_append, hfresh,
      hmid2]
    simp only
    rw [Singleton.run_instances_first _ _ _ rfl]
    simp [counted, Probe.start]
  · intro v hv
    exact ⟨hfire [] v hv, hfire post v hv⟩

/-- C11 amended, at the constructor of the tests: a `Cleanup` before the first
`Instance`, two `Instance` calls, then the handle and two more `Cleanup` calls. -/
theorem singleton_cleanup_fires_witness :
    (Call.Handle = Call.Cleanup ∨ Call.Handle = Call.Handle)
    ∧ Call.Instance ∉ [Call.Cleanup]
    ∧ (∀ d ∈ [Call.Instance], d = Call.Instance)
    ∧ (Singleton.observed create42 (some cleanupNop)
        ([Call.Cleanup] ++ (Call.Instance :: [Call.Instance])) ()).2.2.cleanupStack = []
    ∧ (Singleton.observed create42 (some cleanupNop)
        ([Call.Cleanup] ++ (Call.Instance :: [Call.Instance]) ++
          (Call.Handle :: [Call.Cleanup, Call.Cleanup])) ()).2.2.cleanupStack = [42] :=
  have h := singleton_cleanup_fires create42 cleanupNop () [] [Call.Cleanup] [Call.Instance]
    [Call.Cleanup, Call.Cleanup] Call.Handle (Or.inr rfl) (by decide) (by simp)
  ⟨Or.inr rfl, by decide, by simp, h.2.2.1, (h.2.2.2 42 rfl).2⟩

/-! ## Singleton: reachable states -/

theorem Singleton.Cleanup_eq_or_fires {W T E : Type} (s : Singleton W T E) (w : W) :
    s.Cleanup w = (s, w) ∨
      ∃ f, s.cleanup = some f ∧ s.wasCreated.Load = true ∧ s.cleanupOnce.done = false ∧
        s.Cleanup w = ({ s with cleanupOnce := { done := true } }, f s.inst w) := by
  cases hcl : s.cleanup with
  | none => exact Or.inl (Singleton.Cleanup_inert s w (Or.inl hcl))
  | some f =>
    cases hw : s.wasCreated.Load with
    | false => exact Or.inl (Singleton.Cleanup_inert s w (Or.inr (Or.inl hw)))
    | true =>
      cases hd : s.cleanupOnce.done with
      | true => exact Or.inl (Singleton.Cleanup_inert s w (Or.inr (Or.inr hd)))
      | false =>
        exact Or.inr ⟨f, rfl, rfl, rfl, by rw [Singleton.Cleanup_fires s w f hcl hw hd, hcl]⟩

theorem Singleton.Instance_keeps {W T E : Type} [Inhabited T] (s : Singleton W T E) (w : W)
    (h1 : s.wasCreated.Load = true ↔ (s.createdOnce.done = true ∧ s.err = none))
    (h2 : s.cleanupOnce.done = true → s.wasCreated.Load = true ∧ s.cleanup.isSome = true)
    (h3 : s.createdOnce.done = false → s.inst = default ∧ s.err = none) :
    ((s.Instance w).2.1.wasCreated.Load = true ↔
        ((s.Instance w).2.1.createdOnce.done = true ∧ (s.Instance w).2.1.err = none))
    ∧ ((s.Instance w).2.1.cleanupOnce.done = true →
        (s.Instance w).2.1.wasCreated.Load = true ∧ (s.Instance w).2.1.cleanup.isSome = true)
    ∧ ((s.Instance w).2.1.createdOnce.done = false →
        (s.Instance w).2.1.inst = default ∧ (s.Instance w).2.1.err = none)
    ∧ (s.Instance w).2.1.cleanup = s.cleanup
    ∧ (s.Instance w).2.1.create = s.create := by
  cases hd : s.createdOnce.done with
  | true =>
    rw [Singleton.Instance_done s w hd]
    exact ⟨h1, h2, h3, rfl, rfl⟩
  | false =>
    rw [Singleton.Instance_first s w hd]
    refine ⟨?_, ?_, ?_, rfl, rfl⟩
    · cases (s.create w).1.2 <;> simp [AtomicBool.Load, b32]
    · intro hc
      have := (h1.mp (h2 hc).1).1
      rw [hd] at this
      exact absurd this (by simp)
    · intro hc
      exact absurd hc (by simp)

theorem Singleton.Cleanup_keeps {W T E : Type} [Inhabited T] (s : Singleton W T E) (w : W)
    (h1 : s.wasCreated.Load = true ↔ (s.createdOnce.done = true ∧ s.err = none))
    (h2 : s.cleanupOnce.done = true → s.wasCreated.Load = true ∧ s.cleanup.isSome = true)
    (h3 : s.createdOnce.done = false → s.inst = default ∧ s.err = none) :
    ((s.Cleanup w).1.wasCreated.Load = true ↔
        ((s.Cleanup w).1.createdOnce.done = true ∧ (s.Cleanup w).1.err = none))
    ∧ ((s.Cleanup w).1.cleanupOnce.done = true →
        (s.Cleanup w).1.wasCreated.Load = true ∧ (s.Cleanup w).1.cleanup.isSome = true)
    ∧ ((s.Cleanup w).1.createdOnce.done = false →
        (s.Cleanup w).1.inst = default ∧ (s.Cleanup w).1.err = none)
    ∧ (s.Cleanup w).1.cleanup = s.cleanup
    ∧ (s.Cleanup w).1.create = s.create := by
  rcases Singleton.Cleanup_eq_or_fires s w with h | ⟨f, hcl, hw, _, h⟩
  · rw [h]
    exact ⟨h1, h2, h3, rfl, rfl⟩
  · rw [h]
    refine ⟨h1, ?_, h3, rfl, rfl⟩
    intro _
    exact ⟨hw, by simp [hcl]⟩

theorem Singleton.run_keeps {W T E : Type} [Inhabited T] (calls : List Call)
    (s : Singleton W T E) (w : W)
    (h1 : s.wasCreated.Load = true ↔ (s.createdOnce.done = true ∧ s.err = none))
    (h2 : s.cleanupOnce.done = true → s.wasCreated.Load = true ∧ s.cleanup.isSome = true)
    (h3 : s.createdOnce.done = false → s.inst = default ∧ s.err = none) :
    ((Singleton.run Singleton.Cleanup calls s w).2.1.wasCreated.Load = true ↔
        ((Singleton.run Singleton.Cleanup calls s w).2.1.createdOnce.done = true
          ∧ (Singleton.run Singleton.Cleanup calls s w).2.1.err = none))
    ∧ ((Singleton.run Singleton.Cleanup calls s w).2.1.cleanupOnce.done = true →
        (Singleton.run Singleton.Cleanup calls s w).2.1.wasCreated.Load = true
          ∧ (Singleton.run Singleton.Cleanup calls s w).2.1.cleanup.isSome = true)
    ∧ ((Singleton.run Singleton.Cleanup calls s w).2.1.createdOnce.done = false →
        (Singleton.run Singleton.Cleanup calls s w).2.1.inst = default
          ∧ (Singleton.run Singleton.Cleanup calls s w).2.1.err = none)
    ∧ (Singleton.run Singleton.Cleanup calls s w).2.1.cleanup = s.cleanup
    ∧ (Singleton.run Singleton.Cleanup calls s w).2.1.create = s.create := by
  induction calls generalizing s w with
  | nil => exact ⟨h1, h2, h3, rfl, rfl⟩
  | cons c cs ih =>
    cases c with
    | Instance =>
      obtain ⟨k1, k2, k3, k4, k5⟩ := Singleton.Instance_keeps s w h1 h2 h3
      simp only [Singleton.run]
      rw [← k4, ← k5]
      exact ih _ _ k1 k2 k3
    | Cleanup =>
      obtain ⟨k1, k2, k3, k4, k5⟩ := Singleton.Cleanup_keeps s w h1 h2 h3
      simp only [Singleton.run]
      rw [← k4, ← k5]
      exact ih _ _ k1 k2 k3
    | Handle =>
      obtain ⟨k1, k2, k3, k4, k5⟩ := Singleton.Cleanup_keeps s w h1 h2 h3
      simp only [Singleton.run]
      rw [← k4, ← k5]
      exact ih _ _ k1 k2 k3

theorem Singleton.run_done {W T E : Type} (calls : List Call) (s : Singleton W T E) (w : W)
    (h : Call.Instance ∈ calls ∨ s.createdOnce.done = true) :
    (Singleton.run Singleton.Cleanup calls s w).2.1.createdOnce.done = true := by
  induction calls generalizing s w with
  | nil => simpa [Singleton.run] using h
  | cons c cs ih =>
    have hclean : Call.Instance ∈ cs ∨ (s.Cleanup w).1.createdOnce.done = true →
        (Singleton.run Singleton.Cleanup cs (s.Cleanup w).1 (s.Cleanup w).2).2.1.createdOnce.done
          = true := ih _ _
    cases c with
    | Instance =>
      simp only [Singleton.run]
      refine ih _ _ (Or.inr ?_)
      cases hd : s.createdOnce.done with
      | true => rw [Singleton.Instance_done s w hd]; exact hd
      | false => rw [Singleton.Instance_first s w hd]
    | Cleanup =>
      simp only [Singleton.run]
      refine hclean ?_
      rw [Singleton.Cleanup_frame]
      simpa using h
    | Handle =>
      simp only [Singleton.run]
      refine hclean ?_
      rw [Singleton.Cleanup_frame]
      simpa using h

/-! ## C13: lifetimes without a cleanup function -/

theorem Transient.run_without_cleanup {W T E : Type} (calls : List Call)
    (t : Transient W T E) (w : W) (hc : t.cleanup = none) (hi : t.instances = []) :
    (Transient.run Transient.Cleanup calls t w).2.1.cleanup = none
    ∧ (Transient.run Transient.Cleanup calls t w).2.1.instances = [] := by
  induction calls generalizing t w with
  | nil => exact ⟨hc, hi⟩
  | cons c cs ih =>
    have hclean : t.Cleanup w = (t, w) := by simp [Transient.Cleanup, hc]
    cases c with
    | Instance =>
      simp only [Transient.run]
      refine ih _ _ ?_ ?_ <;> simp [Transient.Instance, hc, hi]
    | Cleanup =>
      simp only [Transient.run, hclean]
      exact ih t w hc hi
    | Handle =>
      simp only [Transient.run, hclean]
      exact ih t w hc hi

/-- C13. Lifetimes built without a cleanup function: in every state a Singleton
from `NewSingleton` or a Transient from `NewTransient` reaches by a sequence of
`Instance` and `Cleanup` calls, `Cleanup` returns the object and the world
unchanged; and the retained sequence `instances` of the Transient is empty after
`N` `Instance` calls, and after any sequence of calls. -/
theorem cleanup_without_function {W T E : Type} [Inhabited T]
    (create : W → (T × Option E) × W) (calls : List Call) (w : W) (N : Nat) :
    (Singleton.run Singleton.Cleanup calls (NewSingleton create) w).2.1.Cleanup
        (Singleton.run Singleton.Cleanup calls (NewSingleton create) w).2.2
      = (Singleton.run Singleton.Cleanup calls (NewSingleton create) w).2
    ∧ (Transient.run Transient.Cleanup calls (NewTransient create) w).2.1.Cleanup
        (Transient.run Transient.Cleanup calls (NewTransient create) w).2.2
      = (Transient.run Transient.Cleanup calls (NewTransient create) w).2
    ∧ (Transient.run Transient.Cleanup (List.replicate N Call.Instance)
        (NewTransient create) w).2.1.instances = []
    ∧ (Transient.run Transient.Cleanup calls (NewTransient create) w).2.1.instances = [] := by
  refine ⟨?_, ?_, ?_, ?_⟩
  · refine Singleton.Cleanup_inert _ _ (Or.inl ?_)
    rw [(Singleton.run_keeps calls (NewSingleton create) w
      (by simp [NewSingleton, NewSingletonWithCleanup, AtomicBool.Load])
      (by simp [NewSingleton, NewSingletonWithCleanup])
      (fun _ => ⟨rfl, rfl⟩)).2.2.2.1]
    rfl
  · have h := (Transient.run_without_cleanup calls (NewTransient create) w rfl rfl).1
    simp [Transient.Cleanup, h]
  · exact (Transient.run_without_cleanup _ (NewTransient create) w rfl rfl).2
  · exact (Transient.run_without_cleanup calls (NewTransient create) w rfl rfl).2

/-! ## C14: the Singleton state invariant -/

/-- C15. Singleton Cleanup does not disturb the cache: in the state a fresh
Singleton reaches by any sequence of calls, a `Cleanup` call `c` (method or
handle) leaves the cached instance, the cached error, the construction guard and
the `wasCreated` flag as they are; an `Instance` call made after `c` returns what
it would have returned without `c`, and the constructor has then been invoked as
often as without `c`; and if `Instance` was called before, the `Instance` call
after `c` returns the cached pair and does not invoke the constructor. -/
theorem singleton_cleanup_keeps_cache {W T E : Type} [Inhabited T]
    (create : W → (T × Option E) × W) (cleanup : Option (T → W → W))
    (calls : List Call) (w : W) (c : Call) (hc : c = Call.Cleanup ∨ c = Call.Handle) :
    (Singleton.observed create cleanup (calls ++ [c]) w).2.1.inst
      = (Singleton.observed create cleanup calls w).2.1.inst
    ∧ (Singleton.observed create cleanup (calls ++ [c]) w).2.1.err
      = (Singleton.observed create cleanup calls w).2.1.err
    ∧ (Singleton.observed create cleanup (calls ++ [c]) w).2.1.createdOnce
      = (Singleton.observed create cleanup calls w).2.1.createdOnce
    ∧ (Singleton.observed create cleanup (calls ++ [c]) w).2.1.wasCreated
      = (Singleton.observed create cleanup calls w).2.1.wasCreated
    ∧ (Singleton.observed create cleanup (calls ++ [c, Call.Instance]) w).1
      = (Singleton.observed create cleanup (calls ++ [Call.Instance]) w).1
    ∧ (Singleton.observed create cleanup (calls ++ [c, Call.Instance]) w).2.2.createdCount
      = (Singleton.observed create cleanup (calls ++ [Call.Instance]) w).2.2.createdCount
    ∧ (Call.Instance ∈ calls →
        (Singleton.observed create cleanup (calls ++ [c, Call.Instance]) w).1
          = (Singleton.observed create cleanup calls w).1 ++
              [((Singleton.observed create cleanup calls w).2.1.inst,
                (Singleton.observed create cleanup calls w).2.1.err)]
        ∧ (Singleton.observed create cleanup (calls ++ [c, Call.Instance]) w).2.2.createdCount
          = (Singleton.observed create cleanup calls w).2.2.createdCount) := by
  simp only [Singleton.observed, Singleton.session]
  have hk := Singleton.run_keeps calls
    (NewSingletonWithCleanup (counted create) (cleanup.map recorded)).1 (Probe.start w)
    (by simp [NewSingletonWithCleanup, AtomicBool.Load])
    (by simp [NewSingletonWithCleanup])
    (fun _ => ⟨rfl, rfl⟩)
  have hdone := fun h => Singleton.run_done calls
    (NewSingletonWithCleanup (counted create) (cleanup.map recorded)).1 (Probe.start w)
    (Or.inl h)
  have hh : (NewSingletonWithCleanup (counted create) (cleanup.map recorded)).2
      = Singleton.Cleanup := rfl
  rw [hh]
  rcases hR : Singleton.run Singleton.Cleanup calls
    (NewSingletonWithCleanup (counted create) (cleanup.map recorded)).1 (Probe.start w)
    with ⟨res, s, p⟩
  rw [hR] at hk hdone
  simp only at hk hdone
  obtain ⟨k1, -, -, k4, -⟩ := hk
  have hstep : ∀ (cs : List Call),
      Singleton.run Singleton.Cleanup (c :: cs) s p =
        Singleton.run Singleton.Cleanup cs (s.Cleanup p).1 (s.Cleanup p).2 := by
    intro cs
    rcases hc with rfl | rfl <;> simp [Singleton.run]
  simp only [Singleton.run_append, hR, hstep]
  rcases Singleton.Cleanup_eq_or_fires s p with h | ⟨f, hcl, hw, -, h⟩
  · rw [h]
    refine ⟨rfl, rfl, rfl, rfl, rfl, rfl, ?_⟩
    intro hmem
    simp [Singleton.run, Singleton.Instance_done s p (hdone hmem)]
  · have hd : s.createdOnce.done = true := (k1.mp hw).1
    have hcount : (f s.inst p).createdCount = p.createdCount := by
      rw [k4] at hcl
      cases cleanup with
      | none => simp [NewSingletonWithCleanup] at hcl
      | some cl =>
        simp only [NewSingletonWithCleanup, Option.map_some', Option.some.injEq] at hcl
        rw [← hcl]
        rfl
    rw [h]
    simp [Singleton.run, Singleton.Instance_done s p hd,
      Singleton.Instance_done { s with cleanupOnce := { done := true } } _ hd, hcount]

/-- C15, at the constructor of the tests: `Instance`, the handle, `Instance`
again: the second `Instance` call still returns 42 although 42 was cleaned up,
and the constructor ran once. -/
theorem singleton_cleanup_keeps_cache_witness :
    (Call.Handle = Call.Cleanup ∨ Call.Handle = Call.Handle)
    ∧ Call.Instance ∈ [Call.Instance]
    ∧ (Singleton.observed create42 (some cleanupNop)
        ([Call.Instance] ++ [Call.Handle, Call.Instance]) ()).1
      = (Singleton.observed create42 (some cleanupNop) [Call.Instance] ()).1 ++
          [((Singleton.observed create42 (some cleanupNop) [Call.Instance] ()).2.1.inst,
            (Singleton.observed create42 (some cleanupNop) [Call.Instance] ()).2.1.err)]
    ∧ (Singleton.observed create42 (some cleanupNop)
        [Call.Instance, Call.Handle, Call.Instance] ()).1 = [(42, none), (42, none)]
    ∧ (Singleton.observed create42 (some cleanupNop)
        [Call.Instance, Call.Handle, Call.Instance] ()).2.2.cleanupStack = [42]
    ∧ (Singleton.observed create42 (some cleanupNop)
        [Call.Instance, Call.Handle, Call.Instance] ()).2.2.createdCount = 1 :=
  ⟨Or.inr rfl, by decide,
    ((singleton_cleanup_keeps_cache create42 (some cleanupNop) [Call.Instance] ()
      Call.Handle (Or.inr rfl)).2.2.2.2.2.2 (by decide)).1,
    rfl, rfl, rfl⟩

/-! ## C16: AtomicBool -/

theorem AtomicBool.after_word (ops : List AtomicBool.Op) (x : AtomicBool)
    (h : x.v = 0 ∨ x.v = 1) : (x.after ops).v = 0 ∨ (x.after ops).v = 1 := by
  induction ops generalizing x with
  | nil => exact h
  | cons op ops ih =>
    cases op with
    | Load => exact ih x h
    | Store val => exact ih _ (by cases val <;> simp [AtomicBool.Store, b32])
    | Swap new => exact ih _ (by cases new <;> simp [AtomicBool.Swap, b32])
    | CompareAndSwap old new =>
      refine ih _ ?_
      unfold AtomicBool.CompareAndSwap
      split
      · cases new <;> simp [b32]
      · exact h

/-- C16. AtomicBool behaves as a boolean cell under sequential use: the zero
value loads false; and for the cell `x` reached from the zero value by any
sequence of method calls: `Load` after `Store(b)` returns `b`; `Swap(n)` returns
what `Load` would have returned and leaves the cell holding `n`;
`CompareAndSwap(o, n)` returns true if and only if the cell held `o`, in that
case leaves the cell holding `n`, and otherwise returns false and leaves the cell
unchanged; the stored word is 0 or 1; `b32` maps true to 1 and false to 0. -/
theorem atomicBool_cell (ops : List AtomicBool.Op) (b o n : Bool) :
    AtomicBool.Load { v := 0 } = false
    ∧ (((AtomicBool.after { v := 0 } ops).Store b).Load = b)
    ∧ ((AtomicBool.after { v := 0 } ops).Swap n).1 = (AtomicBool.after { v := 0 } ops).Load
    ∧ ((AtomicBool.after { v := 0 } ops).Swap n).2.Load = n
    ∧ (((AtomicBool.after { v := 0 } ops).CompareAndSwap o n).1 = true ↔
        (AtomicBool.after { v := 0 } ops).Load = o)
    ∧ ((AtomicBool.after { v := 0 } ops).Load = o →
        ((AtomicBool.after { v := 0 } ops).CompareAndSwap o n).2.Load = n)
    ∧ ((AtomicBool.after { v := 0 } ops).Load ≠ o →
        (AtomicBool.after { v := 0 } ops).CompareAndSwap o n
          = (false, AtomicBool.after { v := 0 } ops))
    ∧ ((AtomicBool.after { v := 0 } ops).v = 0 ∨ (AtomicBool.after { v := 0 } ops).v = 1)
    ∧ b32 true = 1 ∧ b32 false = 0 := by
  have hv := AtomicBool.after_word ops { v := 0 } (Or.inl rfl)
  generalize AtomicBool.after { v := 0 } ops = x at hv ⊢
  rcases x with ⟨v⟩
  simp only at hv
  rcases hv with rfl | rfl <;> cases b <;> cases o <;> cases n <;>
    simp [AtomicBool.Load, AtomicBool.Store, AtomicBool.Swap, AtomicBool.CompareAndSwap, b32]

end Lifetime
